import Mathlib

/-!
Verification development for the `sphinx-jsonschema` directive
(`__init__.py`, schema loading and hide/show path editing) and its
`NestedFormat` layout engine (`nested_format.py`).

The schema data model is an order-preserving JSON/YAML tree: ordered
mappings (insertion order preserved, as `OrderedDict` in the original),
sequences and scalars.  Numbers are modelled as integers; nothing below
depends on numeric values beyond equality.
-/

set_option maxHeartbeats 1600000

namespace SphinxJsonSchema

/-- Order-preserving JSON/YAML value tree. -/
inductive JValue where
  | str (s : String)
  | num (n : Int)
  | bool (b : Bool)
  | null
  | arr (xs : List JValue)
  | obj (kvs : List (String × JValue))

/-- First-occurrence key lookup in an ordered mapping (Python `dict` lookup;
keys are unique in every mapping produced by the loader). -/
def lookupKey : List (String × JValue) → String → Option JValue
  | [], _ => none
  | (k', v) :: rest, k => if k' = k then some v else lookupKey rest k

/-- Python `d[k] = v` on an ordered `dict`: replace in place when the key is
present (keeping its position), otherwise append at the end. -/
def setKey : List (String × JValue) → String → JValue → List (String × JValue)
  | [], k, v => [(k, v)]
  | (k', v') :: rest, k, v =>
      if k' = k then (k, v) :: rest else (k', v') :: setKey rest k v

/-- Python `del d[k]`: remove the entry, `none` when absent (`KeyError`). -/
def removeKey : List (String × JValue) → String → Option (List (String × JValue))
  | [], _ => none
  | (k', v') :: rest, k =>
      if k' = k then some rest else (removeKey rest k).map ((k', v') :: ·)

/-- Python `s.split(sep)` for a one-character separator: splits at every
occurrence, keeping empty pieces (`''.split(' ') == ['']`). -/
def splitCharAux (c : Char) : List Char → List Char → List String
  | [], acc => [String.mk acc.reverse]
  | x :: xs, acc =>
      if x = c then String.mk acc.reverse :: splitCharAux c xs []
      else splitCharAux c xs (x :: acc)

def splitChar (c : Char) (s : String) : List String := splitCharAux c s.data []

def charDigit (c : Char) : Option Nat :=
  if '0' ≤ c && c ≤ '9' then some (c.toNat - '0'.toNat) else none

def parseNatAux : List Char → Nat → Option Nat
  | [], acc => some acc
  | c :: cs, acc =>
      match charDigit c with
      | some d => parseNatAux cs (acc * 10 + d)
      | none => none

/-- Python `int(s)` restricted to unsigned digit strings: at least one digit,
leading zeros allowed (`int('01') == 1`). -/
def parseNatChars : List Char → Option Nat
  | [] => none
  | c :: cs => parseNatAux (c :: cs) 0

/-- Errors raised by the `jsonpointer` library while walking a document. -/
inductive PtrErr where
  | jpe        -- JsonPointerException
  | valueError -- ValueError from int() on a '0'-prefixed non-numeric index
deriving Repr, DecidableEq

/-- Outcome of `JsonPointer.get_part` on a sequence: the original accepts a
part matching the regex `0|[1-9][0-9]*$` and applies `int()` to it (so a
`0`-prefixed part such as "01" is read as the integer 1, and a part such as
"0abc" passes the regex but makes `int()` raise `ValueError`); anything else
raises `JsonPointerException`.  The `-` end-of-list marker, for which the
original returns a sentinel that every downstream use of this code rejects,
is modelled as a pointer error. -/
inductive IndexPart where
  | idx (n : Nat)
  | jpe
  | valueError
deriving Repr, DecidableEq

def getPartSeq (s : String) : IndexPart :=
  match s.data with
  | ['-'] => .jpe
  | '0' :: rest =>
      (match parseNatChars ('0' :: rest) with
       | some n => .idx n
       | none => .valueError)
  | cs =>
      (match parseNatChars cs with
       | some n => .idx n
       | none => .jpe)

/-- `JsonPointer.walk`: one step into a document.  Mappings are indexed by
key; sequences by numeric part.  A Python `str` is a `Sequence`, so walking a
string with an in-bounds numeric part yields the one-character substring.
Scalars do not support indexing and raise `JsonPointerException`. -/
def walkStep : JValue → String → Except PtrErr JValue
  | .obj kvs, part =>
      match lookupKey kvs part with
      | some v => .ok v
      | none => .error .jpe
  | .arr xs, part =>
      match getPartSeq part with
      | .idx i =>
          match xs.get? i with
          | some v => .ok v
          | none => .error .jpe
      | .jpe => .error .jpe
      | .valueError => .error .valueError
  | .str s, part =>
      match getPartSeq part with
      | .idx i =>
          match s.data.get? i with
          | some c => .ok (.str (String.singleton c))
          | none => .error .jpe
      | .jpe => .error .jpe
      | .valueError => .error .valueError
  | _, _ => .error .jpe

/-- `JsonPointer.resolve` / `resolve_pointer`: walk all parts. -/
def resolvePtr (doc : JValue) : List String → Except PtrErr JValue
  | [] => .ok doc
  | p :: ps =>
      match walkStep doc p with
      | .ok d => resolvePtr d ps
      | .error e => .error e

/-- Python `s.replace(two-char pattern, one-char replacement)`: left-to-right,
non-overlapping. -/
def replace2 (a b repl : Char) : List Char → List Char
  | [] => []
  | [x] => [x]
  | x :: y :: rest =>
      if x = a && y = b then repl :: replace2 a b repl rest
      else x :: replace2 a b repl (y :: rest)

/-- `jsonpointer` part unescaping: `part.replace('~1', '/').replace('~0', '~')`. -/
def unescape (s : String) : String :=
  String.mk (replace2 '~' '0' '~' (replace2 '~' '1' '/' s.data))

/-- Errors observable from the hide/show editing code in
`JsonSchema.__init__` (each aborts the directive instance). -/
inductive EditErr where
  | pointer (e : PtrErr)  -- uncaught JsonPointerException / ValueError
  | keyError              -- `del` of a missing mapping key
  | indexError            -- `del` at an out-of-range sequence index, `parts[-1]` on []
  | typeError             -- `del` on an immutable value, pointer with no parts
  | unsupportedParent     -- Exception('Unsupported type parent')
  | attributeError        -- None.split(' ') when `show` is absent
deriving Repr, DecidableEq

/-- `JsonPointer(path)`: the path must be empty or start with `/`; the parts
are the `/`-separated pieces after the leading one, unescaped. -/
def parsePointer (s : String) : Except EditErr (List String) :=
  match splitChar '/' s with
  | first :: rest =>
      if first = "" then .ok (rest.map unescape) else .error (.pointer .jpe)
  | [] => .error (.pointer .jpe)

/-! ### Hide editing (`__init__.py` lines 60-63)

For each hidden path, `ptr.to_last(self.schema)` walks all parts but the
last, converts the last part for the parent container, and the entry is
deleted in place with `del parent[name]`.  The in-place mutation is modelled
by rebuilding the tree along the walked path. -/

/-- `del parent[name]` after `to_last`: the parent's `get_part` conversion of
the final segment followed by deletion.  A mapping raises `KeyError` for a
missing key; a sequence raises `IndexError` out of range; a string parent is
immutable (`TypeError`); other values do not support `get_part`
(`JsonPointerException`). -/
def delHere : JValue → String → Except EditErr JValue
  | .obj kvs, last =>
      match removeKey kvs last with
      | some kvs' => .ok (.obj kvs')
      | none => .error .keyError
  | .arr xs, last =>
      match getPartSeq last with
      | .idx i => if i < xs.length then .ok (.arr (xs.eraseIdx i)) else .error .indexError
      | .jpe => .error (.pointer .jpe)
      | .valueError => .error (.pointer .valueError)
  | .str _, last =>
      match getPartSeq last with
      | .idx _ => .error .typeError
      | .jpe => .error (.pointer .jpe)
      | .valueError => .error (.pointer .valueError)
  | _, _ => .error (.pointer .jpe)

/-- Write an edited child back into its parent at the walked part.  Strings
are immutable in Python, so in-place mutation of a walked-into string never
writes back; the other cases are unreachable after a successful walk. -/
def writeBack : JValue → String → JValue → JValue
  | .obj kvs, part, c => .obj (setKey kvs part c)
  | .arr xs, part, c =>
      match getPartSeq part with
      | .idx i => .arr (xs.set i c)
      | _ => .arr xs
  | v, _, _ => v

/-- One hidden path: `ptr.to_last(self.schema)` then `del parent[name]`.
`to_last` on an empty pointer returns `(doc, None)` and `del doc[None]`
raises. -/
def hideOne (doc : JValue) (parts : List String) : Except EditErr JValue :=
  match parts with
  | [] => .error .typeError
  | [last] => delHere doc last
  | p :: rest =>
      match walkStep doc p with
      | .error e => .error (.pointer e)
      | .ok child =>
          match hideOne child rest with
          | .ok child' => .ok (writeBack doc p child')
          | .error e => .error e

/-- The hide loop over `hidden_paths.split(' ')`, keeping the schema state
reached when a path fails: the original mutates `self.schema` in place, so
deletions made for earlier paths persist even when a later path raises. -/
def hideAllTrace (doc : JValue) : List String → JValue × Option EditErr
  | [] => (doc, none)
  | pstr :: rest =>
      match parsePointer pstr with
      | .error e => (doc, some e)
      | .ok parts =>
          match hideOne doc parts with
          | .error e => (doc, some e)
          | .ok d => hideAllTrace d rest

/-! ### Show editing (`__init__.py` lines 65-98)

Each shown path is walked segment by segment over `parts[:-1]`, advancing
`orig_parent` through the pre-hide snapshot (failures here are uncaught) and
`current_parent` through the edited schema.  When the current walk raises
`JsonPointerException`, a fresh empty container is created whose kind is
taken from the snapshot child, attached when the current parent is a mutable
container — there is no `else`: a non-container current parent is silently
skipped, leaving the fresh container detached.  The final segment inserts
`ptr.resolve(orig_schema)` by sequence append or mapping key assignment, and
raises for any other parent kind. -/

/-- `new_entry` creation from the snapshot child: `isinstance(x, Sequence)`
is true for lists and strings, `isinstance(x, Mapping)` for mappings; any
other kind raises `Exception('Unsupported type parent')`. -/
def newEntryFor : JValue → Except EditErr JValue
  | .arr _ => .ok (.arr [])
  | .str _ => .ok (.arr [])
  | .obj _ => .ok (.obj [])
  | _ => .error .unsupportedParent

/-- Attach a filled fresh container to the current parent: sequence append,
mapping key assignment, and silent skip for anything else (the mid-walk
attachment has no failing branch). -/
def attachEntry : JValue → String → JValue → JValue
  | .arr xs, _, filled => .arr (xs ++ [filled])
  | .obj kvs, part, filled => .obj (setKey kvs part filled)
  | cur, _, _ => cur

/-- Final insertion step: append `ptr.resolve(orig_schema)` to a sequence or
assign it at `ptr.parts[-1]` in a mapping (`parts[-1]` on an empty pointer
raises `IndexError`); any other parent raises. -/
def showFinal (snap : JValue) (parts : List String) (cur : JValue) : Except EditErr JValue :=
  match cur with
  | .arr xs =>
      match resolvePtr snap parts with
      | .ok v => .ok (.arr (xs ++ [v]))
      | .error e => .error (.pointer e)
  | .obj kvs =>
      match resolvePtr snap parts with
      | .ok v =>
          match parts.getLast? with
          | some last => .ok (.obj (setKey kvs last v))
          | none => .error .indexError
      | .error e => .error (.pointer e)
  | _ => .error .unsupportedParent

/-- The walk over `parts[:-1]` for one shown path.  Only
`JsonPointerException` is caught around the current-parent walk; a
`ValueError` from index conversion propagates.  In-place mutation of the
edited schema is modelled by rebuilding via `writeBack`/`attachEntry`; a
detached fresh container is still filled (its computation can raise) but
discarded. -/
def showWalk (snap : JValue) (parts : List String) (orig cur : JValue) :
    List String → Except EditErr JValue
  | [] => showFinal snap parts cur
  | part :: rest =>
      match walkStep orig part with
      | .error e => .error (.pointer e)
      | .ok origChild =>
          match walkStep cur part with
          | .ok curChild =>
              match showWalk snap parts origChild curChild rest with
              | .ok child' => .ok (writeBack cur part child')
              | .error e => .error e
          | .error .valueError => .error (.pointer .valueError)
          | .error .jpe =>
              match newEntryFor origChild with
              | .error e => .error e
              | .ok newEntry =>
                  match showWalk snap parts origChild newEntry rest with
                  | .ok filled => .ok (attachEntry cur part filled)
                  | .error e => .error e

/-- One shown path applied to the edited schema `doc` against the pre-hide
snapshot `snap`. -/
def showOne (snap doc : JValue) (parts : List String) : Except EditErr JValue :=
  showWalk snap parts snap doc parts.dropLast

/-- The show loop over `shown_paths.split(' ')`. -/
def showAll (snap : JValue) (doc : JValue) : List String → Except EditErr JValue
  | [] => .ok doc
  | pstr :: rest =>
      match parsePointer pstr with
      | .error e => .error e
      | .ok parts =>
          match showOne snap doc parts with
          | .error e => .error e
          | .ok d => showAll snap d rest

/-! ### The hide/show option handling (`__init__.py` lines 56-98) -/

/-- `JsonSchema.__init__` after loading: when the `hide` option is absent the
whole block is skipped (a `show` option is never read).  Otherwise the
resolved schema is snapshotted by `json.loads(json.dumps(self.schema))` — an
order-preserving deep value copy, the identity on this model — all hidden
paths are deleted, and then `self.options.get('show')` is split: when `show`
is absent this is `None.split(' ')`, an uncaught `AttributeError`. -/
def applyEdits (schema : JValue) (hideOpt showOpt : Option String) : Except EditErr JValue :=
  match hideOpt with
  | none => .ok schema
  | some hideStr =>
      let snapshot := schema
      match hideAllTrace schema (splitChar ' ' hideStr) with
      | (_, some e) => .error e
      | (afterHide, none) =>
          match showOpt with
          | none => .error .attributeError
          | some showStr => showAll snapshot afterHide (splitChar ' ' showStr)

/-! ### `JsonSchema.ordered_load` (`__init__.py` lines 133-158)

The YAML and JSON parsers are third-party libraries; the loading logic is
modelled over abstract parser outcomes.  `yaml.load` either succeeds, raises
`yaml.scanner.ScannerError`, or raises some other exception; `json.loads`
(run on the same content — a stream is rewound with `seek(0)` first) either
succeeds or raises.  Only a scanner error triggers the JSON retry; every
other failure of either parser reaches the outer handler and is reported via
`self.error` attributed to the directive. -/

inductive YamlOutcome where
  | ok (v : JValue)
  | scannerError
  | otherError

inductive LoadErr where
  | reported
deriving Repr, DecidableEq

def ordered_load (yamlParse : String → YamlOutcome) (jsonParse : String → Option JValue)
    (stream : String) : Except LoadErr JValue :=
  match yamlParse stream with
  | .ok v => .ok v
  | .scannerError =>
      match jsonParse stream with
      | some v => .ok v
      | none => .error .reported
  | .otherError => .error .reported

/-! ### The `NestedFormat` layout engine (`nested_format.py`)

Docutils nodes are modelled by a small tree: a `field` carries its label
(`field_name`), its class tag and its body children; a `section` records the
`memo.section_level` in force while it was built, its normalized name and
title text; `parsedText` stands for the result of `_parse_text`, which hands
the text to the host reStructuredText parser (external to this repository)
and is kept opaque here.  Registration of targets and section names in the
host environment (`app.env.domaindata`, `note_implicit_target`) is host
state outside this model; the constructed nodes themselves are modelled. -/

inductive DocNode where
  | target (ids : List String) (names : List String)
  | section (level : Int) (name : String) (titleText : String) (children : List DocNode)
  | fieldList (fields : List DocNode)
  | field (label : String) (clazz : String) (body : List DocNode)
  | bulletList (items : List DocNode)
  | listItem (children : List DocNode)
  | paragraph (text : String)
  | parsedText (text : String)

mutual
/-- Python `==` on schema values, as used by `in` membership tests against a
string (the only comparisons this code performs, so the mapping case never
influences a result here). -/
def beqV : JValue → JValue → Bool
  | .str a, .str b => a = b
  | .num a, .num b => a = b
  | .bool a, .bool b => a = b
  | .null, .null => true
  | .arr a, .arr b => beqL a b
  | .obj a, .obj b => beqKV a b
  | _, _ => false
def beqL : List JValue → List JValue → Bool
  | [], [] => true
  | x :: xs, y :: ys => beqV x y && beqL xs ys
  | _, _ => false
def beqKV : List (String × JValue) → List (String × JValue) → Bool
  | [], [] => true
  | (k, v) :: xs, (k', v') :: ys => k = k' && beqV v v' && beqKV xs ys
  | _, _ => false
end

def isPrefixChars : List Char → List Char → Bool
  | [], _ => true
  | _ :: _, [] => false
  | x :: xs, y :: ys => x = y && isPrefixChars xs ys

/-- Python substring containment `needle in haystack`. -/
def hasSub (needle : List Char) : List Char → Bool
  | [] => needle.isEmpty
  | c :: rest => isPrefixChars needle (c :: rest) || hasSub needle rest

/-- Python `k in doc`: key presence for mappings, element membership for
sequences, substring test for strings.  On other scalars `in` raises
`TypeError`; every schema this code inspects with `in` is a mapping in
practice, and the raising case is modelled as `false`. -/
def keyIn (k : String) : JValue → Bool
  | .obj kvs => (lookupKey kvs k).isSome
  | .arr xs => xs.any (fun x => beqV x (.str k))
  | .str s => hasSub k.data s.data
  | _ => false

/-- Python `schema[k]` where used on mappings (`none` corresponds to the
raising cases on other values, which are unreachable behind `keyIn`
guards on mappings). -/
def lookupJ : JValue → String → Option JValue
  | .obj kvs, k => lookupKey kvs k
  | _, _ => none

/-- Python `schema.get(k, d)`. -/
def getJ (schema : JValue) (k : String) (d : JValue) : JValue :=
  (lookupJ schema k).getD d

/-- Python `str(value)` as rendered into `paragraph(text=...)` nodes.  The
scalar forms are faithful; schema constraint values printed this way are
scalars in every real schema, so the container forms (Python would print the
`repr`) are kept opaque. -/
def pyStr : JValue → String
  | .str s => s
  | .num n => toString n
  | .bool b => if b then "True" else "False"
  | .null => "None"
  | .arr _ => "<list>"
  | .obj _ => "<dict>"

/-- The text handed to `_parse_text` / `inline_text` / `normalize_name`,
which require a string: non-string values raise there and are modelled by
their printed form. -/
def textOf : JValue → String
  | .str s => s
  | v => pyStr v

/-- Python iteration `for x in value`: sequence elements, mapping keys,
string characters; other scalars raise `TypeError` (modelled empty). -/
def pyIter : JValue → List JValue
  | .arr xs => xs
  | .obj kvs => kvs.map (fun kv => JValue.str kv.1)
  | .str s => s.data.map (fun c => JValue.str (String.singleton c))
  | _ => []

def splitWSAux : List Char → List Char → List String
  | [], acc => [String.mk acc.reverse]
  | c :: rest, acc =>
      if c.isWhitespace then String.mk acc.reverse :: splitWSAux rest []
      else splitWSAux rest (c :: acc)

/-- `docutils.nodes.fully_normalize_name`: lowercase and collapse whitespace
runs (`' '.join(name.lower().split())`). -/
def normalizeName (s : String) : String :=
  String.intercalate " "
    ((splitWSAux (s.data.map Char.toLower) []).filter (fun p => p ≠ ""))

/-- `_create_field`: a `field` node with its class tag, a `field_name`
holding the label and a `field_body` holding the child (the
name/body indirection is flattened into the `field` constructor). -/
def createField (label clazz : String) (child : List DocNode) : DocNode :=
  .field label clazz child

/-- `KV_SIMPLE`, in the key order of the Python dict literal. -/
def KV_SIMPLE : List (String × String) :=
  [("multipleOf", "Multiple of"),
   ("maximum", "Maximum"),
   ("exclusiveMaximum", "Exclusive Maximum"),
   ("minimum", "Minimum"),
   ("exclusiveMinimum", "Exclusive Minimum"),
   ("maxLength", "Maximum length"),
   ("minLength", "Minimum length"),
   ("pattern", "Pattern"),
   ("default", "Default"),
   ("format", "Format")]

/-- `KV_ARRAY`. -/
def KV_ARRAY : List (String × String) :=
  [("maxItems", "Maximum number of items"),
   ("minItems", "Minimum number of items"),
   ("uniqueItems", "Unique items")]

/-- `KV_OBJECT`. -/
def KV_OBJECT : List (String × String) :=
  [("maxProperties", "Maximum number of properties"),
   ("minProperties", "Minimum number of properties")]

/-- `_kvpairs`: one labeled value field per present key, in table order. -/
def kvpairs (schema : JValue) (keys : List (String × String)) : List DocNode :=
  keys.filterMap fun kl =>
    match lookupJ schema kl.1 with
    | some v => some (createField kl.2 ("jsonschema-" ++ kl.1) [.paragraph (pyStr v)])
    | none => none

/-- `$$target` values: a non-list value is wrapped in a singleton list. -/
def targetsOf (schema : JValue) : List JValue :=
  match lookupJ schema "$$target" with
  | some (.arr xs) => xs
  | some v => [v]
  | none => []

/-- `_create_target`: one anchor per target name, normalized; the node's
`ids` and `names` both collect the anchors (host registry updates are
external state, not modelled). -/
def createTarget (schema : JValue) : DocNode :=
  .target ((targetsOf schema).map (fun t => normalizeName (textOf t)))
          ((targetsOf schema).map (fun t => normalizeName (textOf t)))

theorem sizeOf_lookupKey {kvs : List (String × JValue)} {k : String} {v : JValue}
    (h : lookupKey kvs k = some v) : sizeOf v < sizeOf kvs := by
  induction kvs with
  | nil => simp [lookupKey] at h
  | cons kv rest ih =>
      obtain ⟨k', v'⟩ := kv
      simp only [lookupKey] at h
      split at h
      · cases h
        simp only [List.cons.sizeOf_spec, Prod.mk.sizeOf_spec]
        omega
      · have := ih h
        simp only [List.cons.sizeOf_spec]
        omega

theorem sizeOf_lookupJ {schema : JValue} {k : String} {v : JValue}
    (h : lookupJ schema k = some v) : sizeOf v < sizeOf schema := by
  cases schema <;> simp only [lookupJ] at h <;> try cases h
  case obj kvs =>
    have := sizeOf_lookupKey h
    simp only [JValue.obj.sizeOf_spec]
    omega

/-- `_dispatch` applied to a non-mapping.  Membership tests on lists and
strings can succeed (element membership / substring), but each selected
renderer then immediately raises (`schema[...]`/`schema.get` on a
non-mapping); when no test matches the dispatch falls through to the empty
result.  The non-raising executions are modelled: the result is empty. -/
def dispatchNonMap (_ : JValue) : List DocNode := []

mutual

/-- `_dispatch`: fixed-priority renderer selection — `$ref`, then `type`,
then the combinators in `COMBINATORS` order (`allOf`, `anyOf`, `oneOf`),
then `not`, then `definitions` (note: passing the *whole* schema to
`_process_definitions`), else the empty result. -/
def dispatch (schema : JValue) : List DocNode :=
  match schema with
  | .obj kvs =>
      if keyIn "$ref" (.obj kvs) then [processRef (.obj kvs)]
      else if keyIn "type" (.obj kvs) then [processType (.obj kvs)]
      else
        match h1 : lookupKey kvs "allOf" with
        | some v => [processCombinator "All of" v]
        | none =>
        match h2 : lookupKey kvs "anyOf" with
        | some v => [processCombinator "Any of" v]
        | none =>
        match h3 : lookupKey kvs "oneOf" with
        | some v => [processCombinator "One of" v]
        | none =>
        match h4 : lookupKey kvs "not" with
        | some v => [processSingle "Not" v]
        | none =>
          if keyIn "definitions" (.obj kvs) then [processDefinitions (.obj kvs)]
          else []
  | other => dispatchNonMap other
termination_by 4 * sizeOf schema + 2
decreasing_by
  all_goals simp_wf
  all_goals try omega
  all_goals
    (first
      | (have hx := sizeOf_lookupKey h1)
      | (have hx := sizeOf_lookupKey h2)
      | (have hx := sizeOf_lookupKey h3)
      | (have hx := sizeOf_lookupKey h4))
  all_goals try simp only [JValue.obj.sizeOf_spec] at hx ⊢
  all_goals omega

/-- `_process_type`: identity/description/type header fields, then the
extras for the `object`, `array` or scalar-like shape. -/
def processType (schema : JValue) : DocNode :=
  let header : List DocNode :=
    (if keyIn "$$target" schema then
      [createField "Id" "jsonschema-description"
        [createTarget schema, .paragraph (pyStr (getJ schema "$$target" .null))]]
     else []) ++
    (match lookupJ schema "description" with
     | some d => [createField "Description" "jsonschema-description" [.parsedText (textOf d)]]
     | none => []) ++
    (match lookupJ schema "type" with
     | some t => [createField "Type" "jsonschema-description" [.paragraph (pyStr t)]]
     | none => [])
  let extras : List DocNode :=
    if beqV (getJ schema "type" .null) (.str "object") then
      (match lookupJ schema "properties" with
       | some _ => [createField "Properties" "jsonschema-properties"
                      [processObjectProperties schema "properties"]]
       | none => []) ++
      (match lookupJ schema "patternProperties" with
       | some _ => [createField "Properties" "jsonschema-pattern-properties"
                      [processObjectProperties schema "patternProperties"]]
       | none => []) ++
      (match ha : lookupJ schema "additionalProperties" with
       | some v => boolOrObject v "Additional Properties" "jsonschema-additional-properties"
                     "Allowed" "Not allowed"
       | none => []) ++
      kvpairs schema KV_OBJECT
    else if beqV (getJ schema "type" .null) (.str "array") then
      (match hi : lookupJ schema "items" with
       | some (.arr xs) =>
           [createField "Items" "jsonschema-items" [.bulletList (itemsList xs)]]
       | some v => [createField "Item" "jsonschema-item-template" (dispatch v)]
       | none => []) ++
      (match hb : lookupJ schema "additionalItems" with
       | some v => boolOrObject v "Additional Items" "jsonschema-additional-items"
                     "Allowed" "Not allowed"
       | none => []) ++
      kvpairs schema KV_ARRAY
    else
      (match lookupJ schema "enum" with
       | some e => [createField "Valid values" "enum"
                      [.bulletList ((pyIter e).map
                         (fun item => DocNode.listItem [.paragraph (pyStr item)]))]]
       | none => []) ++
      kvpairs schema KV_SIMPLE
  .fieldList (header ++ extras)
termination_by 4 * sizeOf schema + 1
decreasing_by
  all_goals simp_wf
  all_goals try omega
  all_goals
    (first
      | (have hx := sizeOf_lookupJ ha)
      | (have hx := sizeOf_lookupJ hi)
      | (have hx := sizeOf_lookupJ hb))
  all_goals try simp only [JValue.arr.sizeOf_spec] at hx ⊢
  all_goals omega

/-- `_process_object_properties`: one field per property, in mapping order,
each holding a Required yes/no field and a recursively formatted Type field.
(`schema[prop_name].items()` on a non-mapping value raises; the raising case
is modelled as an empty list.) -/
def processObjectProperties (schema : JValue) (propName : String) : DocNode :=
  match hp : lookupJ schema propName with
  | some (.obj pkvs) => .fieldList (propsFields schema pkvs)
  | _ => .fieldList []
termination_by 4 * sizeOf schema
decreasing_by
  all_goals simp_wf
  all_goals have hx := sizeOf_lookupJ hp
  all_goals try simp only [JValue.obj.sizeOf_spec] at hx ⊢
  all_goals omega

/-- The loop body of `_process_object_properties` over the property pairs. -/
def propsFields (schema : JValue) : List (String × JValue) → List DocNode
  | [] => []
  | (key, item) :: rest =>
      let req := keyIn key (getJ schema "required" (.arr []))
      let requiredClass := if req then " jsonschema-required" else ""
      createField key ("jsonschema-property" ++ requiredClass)
        [.fieldList
          [createField "Required" "jsonschema-required"
             [.paragraph (if req then "Yes" else "No")],
           createField "Type" "jsonschema-type" (dispatch item)]]
      :: propsFields schema rest
termination_by l => 4 * sizeOf l + 3
decreasing_by
  all_goals simp_wf
  all_goals try simp only [List.cons.sizeOf_spec, Prod.mk.sizeOf_spec]
  all_goals omega

/-- `_process_combinator`: a Combination label field and a Types field with
one bullet entry per alternative.  For a non-sequence combinator value the
iteration yields key strings or characters, on which `_dispatch` never
recurses (it raises or falls through empty). -/
def processCombinator (label : String) (v : JValue) : DocNode :=
  let entries : List DocNode :=
    match v with
    | .arr xs => itemsList xs
    | other => (pyIter other).map (fun s => DocNode.listItem (dispatchNonMap s))
  .fieldList
    [createField "Combination" "json-combinatortype" [.paragraph label],
     createField "Types" "jsonschema-combinedtypes" [.bulletList entries]]
termination_by 4 * sizeOf v + 2
decreasing_by
  all_goals simp_wf
  all_goals try simp only [JValue.arr.sizeOf_spec]
  all_goals omega

/-- One recursively formatted bullet entry per element (`items` lists and
combinator alternatives). -/
def itemsList : List JValue → List DocNode
  | [] => []
  | x :: rest => DocNode.listItem (dispatch x) :: itemsList rest
termination_by l => 4 * sizeOf l + 3
decreasing_by
  all_goals simp_wf
  all_goals try simp only [List.cons.sizeOf_spec]
  all_goals omega

/-- `_process_singleobjects`: like a combinator but with exactly one
recursively formatted child and no list wrapper. -/
def processSingle (label : String) (v : JValue) : DocNode :=
  .fieldList
    [createField "Combination" "json-combinatortype" [.paragraph label],
     createField "Types" "jsonschema-combinedtypes" (dispatch v)]
termination_by 4 * sizeOf v + 3
decreasing_by
  all_goals simp_wf
  all_goals omega

/-- `_process_definitions`: one field per `(name, definition)` item of the
mapping it is handed, each recursively formatted. -/
def processDefinitions (schema : JValue) : DocNode :=
  match schema with
  | .obj kvs => .fieldList (defsFields kvs)
  | _ => .fieldList []
termination_by 4 * sizeOf schema + 1
decreasing_by
  all_goals simp_wf
  all_goals try simp only [JValue.obj.sizeOf_spec]
  all_goals omega

/-- The loop body of `_process_definitions`. -/
def defsFields : List (String × JValue) → List DocNode
  | [] => []
  | (name, defn) :: rest =>
      createField name "jsonschema-definition" (dispatch defn) :: defsFields rest
termination_by l => 4 * sizeOf l + 3
decreasing_by
  all_goals simp_wf
  all_goals try simp only [List.cons.sizeOf_spec, Prod.mk.sizeOf_spec]
  all_goals omega

/-- `_process_reftype`: optional Description, the `:ref:` cross-reference,
and optional nested definitions. -/
def processRef (schema : JValue) : DocNode :=
  .fieldList (
    (match lookupJ schema "description" with
     | some d => [createField "Description" "jsonschema-description" [.parsedText (textOf d)]]
     | none => []) ++
    [createField "Reference" "jsonschema-reference"
      [.parsedText (":ref:`" ++ textOf (getJ schema "$ref" .null) ++ "`")]] ++
    (match hd : lookupJ schema "definitions" with
     | some defs => [createField "Definitions" "jsonschema-definitions" [processDefinitions defs]]
     | none => []))
termination_by 4 * sizeOf schema + 1
decreasing_by
  all_goals simp_wf
  all_goals have hx := sizeOf_lookupJ hd
  all_goals omega

/-- `_bool_or_object`: a labeled Allowed/Not-allowed field for a boolean,
otherwise the recursively formatted schema. -/
def boolOrObject (v : JValue) (label clazz yes no : String) : List DocNode :=
  match v with
  | .bool b => [createField label clazz [.paragraph (if b then yes else no)]]
  | other => dispatch other
termination_by 4 * sizeOf v + 3
decreasing_by
  all_goals simp_wf
  all_goals omega

end

/-! ### `transform` and `_wrap_in_section` -/

/-- The host parser state observed by `_wrap_in_section`: the section nesting
counter `self.state.memo.section_level`. -/
structure FmtState where
  sectionLevel : Int

/-- `_wrap_in_section`: prepend a target node when `$$target` is present;
when a `title` is present, save `memo.section_level`, increment it while the
section node is built (the built node records the level in force during
construction), and restore the saved value afterwards; without a title the
formatted body is emitted unwrapped.  (`result.append(table)` appends the
dispatch result, a single `field_list` node or the empty list, which is the
same as concatenation on this model.) -/
def wrapInSection (schema : JValue) (table : List DocNode) (st : FmtState) :
    List DocNode × FmtState :=
  let pre : List DocNode := if keyIn "$$target" schema then [createTarget schema] else []
  match lookupJ schema "title" with
  | some titleVal =>
      let mylevel := st.sectionLevel
      let buildLevel := mylevel + 1
      let t := textOf titleVal
      let node := DocNode.section buildLevel (normalizeName t) t table
      (pre ++ [node], { sectionLevel := mylevel })
  | none => (pre ++ table, st)

/-- `NestedFormat.transform`. -/
def transform (schema : JValue) (st : FmtState) : List DocNode × FmtState :=
  wrapInSection schema (dispatch schema) st

/-! ### Observation helpers used by the statements below -/

/-- The labels (`field_name` texts) of the fields of a field list. -/
def fieldLabels : DocNode → List String
  | .fieldList fs =>
      fs.filterMap (fun f =>
        match f with
        | .field label _ _ => some label
        | _ => none)
  | _ => []

/-- An empty container of the kind `new_entry` creation derives from a
snapshot node (list for sequences — including strings — mapping for
mappings). -/
def emptyLike : JValue → JValue
  | .obj _ => .obj []
  | _ => .arr []

/-- The tree the show restoration builds when every walked segment is
missing from the edited schema: one fresh container per segment, of the kind
of the snapshot node at that depth, holding only the next level, with the
resolved value placed at the bottom (mapping key assignment or sequence
append into the fresh empty container). -/
def freshFill (snapNode : JValue) (last : String) (v : JValue) :
    List String → JValue
  | [] =>
      (match snapNode with
       | .obj _ => .obj [(last, v)]
       | _ => .arr [v])
  | part :: rest =>
      let child := match walkStep snapNode part with
        | .ok c => c
        | .error _ => .null
      (match snapNode with
       | .obj _ => .obj [(part, freshFill child last v rest)]
       | _ => .arr [freshFill child last v rest])

/-- Every node along the pointer, except possibly the final value, is a
mapping with the segment present. -/
def onObjChain : JValue → List String → Bool
  | _, [] => true
  | .obj kvs, p :: ps =>
      (match lookupKey kvs p with
       | some c => onObjChain c ps
       | none => false)
  | _, _ :: _ => false

/-- Whether a value is a mutable container in the sense of the attachment
tests (`isinstance(x, MutableSequence)` / `isinstance(x, MutableMapping)`:
lists and mappings, but not strings or other scalars). -/
def isAttachable : JValue → Bool
  | .arr _ => true
  | .obj _ => true
  | _ => false

/-- One step of the hide loop: pointer construction followed by the
delete-at-path edit. -/
def hideStep (doc : JValue) (pstr : String) : Except EditErr JValue :=
  match parsePointer pstr with
  | .ok parts => hideOne doc parts
  | .error e => .error e

/-- Hide of a path followed by show of the same path, as the directive
performs for single-path `hide`/`show` options. -/
def hideShow (doc : JValue) (parts : List String) : Except EditErr JValue :=
  match hideOne doc parts with
  | .ok d => showOne doc d parts
  | .error e => .error e

/-! ### Support lemmas -/

theorem lookupKey_setKey_self (l : List (String × JValue)) (k : String) (v : JValue) :
    lookupKey (setKey l k v) k = some v := by
  induction l with
  | nil => simp [setKey, lookupKey]
  | cons kv rest ih =>
      obtain ⟨k', v'⟩ := kv
      by_cases h : k' = k <;> simp [setKey, lookupKey, h, ih]

theorem removeKey_of_lookup {l : List (String × JValue)} {k : String} {v : JValue}
    (h : lookupKey l k = some v) : ∃ l', removeKey l k = some l' := by
  induction l with
  | nil => simp [lookupKey] at h
  | cons kv rest ih =>
      obtain ⟨k', v'⟩ := kv
      simp only [lookupKey] at h
      by_cases hk : k' = k
      · exact ⟨rest, by simp [removeKey, hk]⟩
      · simp only [hk, if_false] at h
        obtain ⟨r', hr⟩ := ih h
        exact ⟨(k', v') :: r', by simp [removeKey, hk, hr]⟩

theorem hideOne_cons (doc : JValue) (p : String) (ps : List String) (h : ps ≠ []) :
    hideOne doc (p :: ps) =
      (match walkStep doc p with
       | .error e => .error (.pointer e)
       | .ok child =>
           (match hideOne child ps with
            | .ok child' => .ok (writeBack doc p child')
            | .error e => .error e)) := by
  cases ps with
  | nil => exact absurd rfl h
  | cons q qs => rfl

theorem fieldLabels_propsFields (schema : JValue) (l : List (String × JValue)) :
    fieldLabels (.fieldList (propsFields schema l)) = l.map Prod.fst := by
  induction l with
  | nil => simp [propsFields, fieldLabels]
  | cons kv rest ih =>
      obtain ⟨k, v⟩ := kv
      simp only [fieldLabels] at ih ⊢
      simp only [propsFields, createField, List.filterMap_cons, List.map_cons]
      rw [ih]

theorem removeKey_map_fst {l : List (String × JValue)} {k : String}
    {l' : List (String × JValue)} (h : removeKey l k = some l') :
    l'.map Prod.fst = (l.map Prod.fst).erase k := by
  induction l generalizing l' with
  | nil => simp [removeKey] at h
  | cons kv rest ih =>
      obtain ⟨k', v'⟩ := kv
      simp only [removeKey] at h
      by_cases hk : k' = k
      · subst hk
        simp only [if_pos rfl] at h
        cases h
        simp [List.erase_cons_head]
      · simp only [if_neg hk] at h
        obtain ⟨r', hr', hl'⟩ := Option.map_eq_some'.mp h
        subst hl'
        rw [List.map_cons, List.map_cons, List.erase_cons_tail (by simpa using hk), ih hr']

theorem setKey_map_fst {l : List (String × JValue)} {k : String} {v : JValue}
    (h : (lookupKey l k).isSome) : (setKey l k v).map Prod.fst = l.map Prod.fst := by
  induction l with
  | nil => simp [lookupKey] at h
  | cons kv rest ih =>
      obtain ⟨k', v'⟩ := kv
      by_cases hk : k' = k
      · subst hk
        simp [setKey]
      · simp only [lookupKey, if_neg hk] at h
        simp [setKey, hk, ih h]

theorem newEntryFor_of_resolve {oc : JValue} {ps : List String} {v : JValue}
    (hne : ps ≠ []) (h : resolvePtr oc ps = .ok v) :
    newEntryFor oc = .ok (emptyLike oc) := by
  cases ps with
  | nil => exact absurd rfl hne
  | cons p ps' => cases oc <;> first | rfl | simp [resolvePtr, walkStep] at h

theorem walkStep_emptyLike {orig : JValue} {part : String} {oc : JValue}
    (h : walkStep orig part = .ok oc) :
    walkStep (emptyLike orig) part = .error .jpe := by
  cases orig with
  | obj kvs => rfl
  | arr xs =>
      simp only [walkStep, emptyLike] at h ⊢
      cases hg : getPartSeq part with
      | idx i => simp
      | jpe => simp [hg] at h
      | valueError => simp [hg] at h
  | str s =>
      simp only [walkStep, emptyLike] at h ⊢
      cases hg : getPartSeq part with
      | idx i => simp
      | jpe => simp [hg] at h
      | valueError => simp [hg] at h
  | num n => simp [walkStep] at h
  | bool b => simp [walkStep] at h
  | null => simp [walkStep] at h

theorem showWalk_fresh (snap : JValue) (parts : List String) (last : String) (v : JValue)
    (hres : resolvePtr snap parts = .ok v) (hlast : parts.getLast? = some last) :
    ∀ (mid : List String) (orig : JValue), resolvePtr orig (mid ++ [last]) = .ok v →
      showWalk snap parts orig (emptyLike orig) mid = .ok (freshFill orig last v mid) := by
  intro mid
  induction mid with
  | nil =>
      intro orig h
      show showFinal snap parts (emptyLike orig) = .ok (freshFill orig last v [])
      cases orig with
      | obj kvs => simp [showFinal, emptyLike, hres, hlast, freshFill, setKey]
      | arr xs => simp [showFinal, emptyLike, hres, freshFill]
      | str s => simp [showFinal, emptyLike, hres, freshFill]
      | num n => simp [resolvePtr, walkStep] at h
      | bool b => simp [resolvePtr, walkStep] at h
      | null => simp [resolvePtr, walkStep] at h
  | cons part rest ih =>
      intro orig h
      cases hw : walkStep orig part with
      | error e => simp [List.cons_append, resolvePtr, hw] at h
      | ok oc =>
          have hoc : resolvePtr oc (rest ++ [last]) = .ok v := by
            simpa only [List.cons_append, resolvePtr, hw] using h
          have hfail := walkStep_emptyLike hw
          have hnew : newEntryFor oc = .ok (emptyLike oc) :=
            newEntryFor_of_resolve (by simp) hoc
          have hrec := ih oc hoc
          simp only [showWalk, hw, hfail, hnew, hrec]
          cases orig with
          | obj kvs => simp [attachEntry, emptyLike, freshFill, setKey, hw]
          | arr xs => simp [attachEntry, emptyLike, freshFill, hw]
          | str s => simp [attachEntry, emptyLike, freshFill, hw]
          | num n => simp [walkStep] at hw
          | bool b => simp [walkStep] at hw
          | null => simp [walkStep] at hw

theorem hideShow_objChain (snap : JValue) (parts : List String) (last : String) (v : JValue)
    (hres0 : resolvePtr snap parts = .ok v) (hlast : parts.getLast? = some last) :
    ∀ (mid : List String) (orig : JValue),
      onObjChain orig (mid ++ [last]) = true →
      resolvePtr orig (mid ++ [last]) = .ok v →
      ∃ d r, hideOne orig (mid ++ [last]) = .ok d ∧
        showWalk snap parts orig d mid = .ok r ∧
        resolvePtr r (mid ++ [last]) = .ok v := by
  intro mid
  induction mid with
  | nil =>
      intro orig hchain h
      cases orig with
      | obj kvs =>
          have hlk : lookupKey kvs last = some v := by
            simp only [List.nil_append, resolvePtr, walkStep] at h
            cases hl : lookupKey kvs last with
            | some w =>
                rw [hl] at h
                simpa [resolvePtr] using h
            | none => rw [hl] at h; simp at h
          obtain ⟨kvs', hrm⟩ := removeKey_of_lookup hlk
          refine ⟨.obj kvs', .obj (setKey kvs' last v), ?_, ?_, ?_⟩
          · show delHere (.obj kvs) last = .ok (.obj kvs')
            simp [delHere, hrm]
          · show showFinal snap parts (.obj kvs') = .ok (.obj (setKey kvs' last v))
            simp [showFinal, hres0, hlast]
          · simp [resolvePtr, walkStep, lookupKey_setKey_self]
      | str s => simp [onObjChain] at hchain
      | arr xs => simp [onObjChain] at hchain
      | num n => simp [onObjChain] at hchain
      | bool b => simp [onObjChain] at hchain
      | null => simp [onObjChain] at hchain
  | cons part rest ih =>
      intro orig hchain h
      cases orig with
      | obj kvs =>
          simp only [List.cons_append, onObjChain] at hchain
          cases hl : lookupKey kvs part with
          | none => rw [hl] at hchain; simp at hchain
          | some child =>
              rw [hl] at hchain
              have hw : walkStep (.obj kvs) part = .ok child := by simp [walkStep, hl]
              have hres' : resolvePtr child (rest ++ [last]) = .ok v := by
                simpa only [List.cons_append, resolvePtr, hw] using h
              obtain ⟨d, r, hd, hs, hr⟩ := ih child hchain hres'
              refine ⟨.obj (setKey kvs part d), .obj (setKey (setKey kvs part d) part r),
                ?_, ?_, ?_⟩
              · rw [List.cons_append, hideOne_cons _ _ _ (by simp), hw]
                show (match hideOne child (rest ++ [last]) with
                      | .ok child' => Except.ok (writeBack (.obj kvs) part child')
                      | .error e => .error e) = .ok (.obj (setKey kvs part d))
                rw [hd]
                rfl
              · have hwd : walkStep (.obj (setKey kvs part d)) part = .ok d := by
                  simp [walkStep, lookupKey_setKey_self]
                simp only [showWalk, hw, hwd, hs]
                rfl
              · simp [resolvePtr, walkStep, lookupKey_setKey_self, hr]
      | str s => simp [onObjChain] at hchain
      | arr xs => simp [onObjChain] at hchain
      | num n => simp [onObjChain] at hchain
      | bool b => simp [onObjChain] at hchain
      | null => simp [onObjChain] at hchain

/-! ### Claims -/

/-- Claim C6 (confirmed): `ordered_load` first attempts the order-preserving
YAML parse; exactly a scan-level syntax error triggers the JSON retry on the
same content, whose failure is a reported error; any other YAML failure is a
reported error with no retry, and when no retry happens the JSON parser is
never consulted. -/
theorem C6_yaml_then_json_retry (yamlParse : String → YamlOutcome)
    (jsonParse jsonParse' : String → Option JValue) (s : String) :
    (∀ v, yamlParse s = .ok v → ordered_load yamlParse jsonParse s = .ok v) ∧
    (yamlParse s = .scannerError →
      ordered_load yamlParse jsonParse s =
        (match jsonParse s with
         | some v => .ok v
         | none => .error .reported)) ∧
    (yamlParse s = .otherError → ordered_load yamlParse jsonParse s = .error .reported) ∧
    (yamlParse s ≠ .scannerError →
      ordered_load yamlParse jsonParse s = ordered_load yamlParse jsonParse' s) := by
  unfold ordered_load
  refine ⟨fun v hv => by rw [hv], fun h => by rw [h], fun h => by rw [h], fun h => ?_⟩
  cases hy : yamlParse s with
  | ok v => rfl
  | scannerError => exact absurd hy h
  | otherError => rfl

theorem C6_witness :
    ordered_load (fun _ => YamlOutcome.scannerError) (fun _ => some (JValue.num 1)) "x"
      = .ok (JValue.num 1) :=
  (C6_yaml_then_json_retry (fun _ => .scannerError) (fun _ => some (.num 1))
    (fun _ => none) "x").2.1 rfl

/-- Claim C9 (confirmed): with a `title`, `transform` wraps the formatted
body in a section built while the section level was incremented (the node
records level `st.sectionLevel + 1`) and the level is restored afterwards;
without a `title` the body is emitted unwrapped and the state untouched. -/
theorem C9_title_section_wrap (schema : JValue) (st : FmtState) :
    (∀ tv, lookupJ schema "title" = some tv →
      transform schema st =
        ((if keyIn "$$target" schema then [createTarget schema] else []) ++
           [DocNode.section (st.sectionLevel + 1) (normalizeName (textOf tv)) (textOf tv)
              (dispatch schema)],
         st) ∧ (transform schema st).2.sectionLevel = st.sectionLevel) ∧
    (lookupJ schema "title" = none →
      transform schema st =
        ((if keyIn "$$target" schema then [createTarget schema] else []) ++ dispatch schema,
         st)) := by
  unfold transform wrapInSection
  constructor
  · intro tv htv
    rw [htv]
    exact ⟨rfl, rfl⟩
  · intro h
    rw [h]

theorem C9_witness :
    transform (JValue.obj [("title", .str "My Title")]) ⟨2⟩ =
      ([DocNode.section 3 (normalizeName "My Title") "My Title"
          (dispatch (JValue.obj [("title", .str "My Title")]))], ⟨2⟩) :=
  ((C9_title_section_wrap (JValue.obj [("title", .str "My Title")]) ⟨2⟩).1
    (.str "My Title") rfl).1

/-- Claim C10 (confirmed): the `show` option is read only when `hide` is
present — `show` without `hide` leaves the schema untouched — while `hide`
without `show` fails with the `AttributeError` from `None.split(' ')`
(after the hides were applied) instead of applying the hides alone. -/
theorem C10_show_only_with_hide (schema d : JValue) (hideStr showStr : String)
    (h : hideAllTrace schema (splitChar ' ' hideStr) = (d, none)) :
    applyEdits schema none (some showStr) = .ok schema ∧
    applyEdits schema none none = .ok schema ∧
    applyEdits schema (some hideStr) none = .error .attributeError := by
  refine ⟨rfl, rfl, ?_⟩
  have hred : applyEdits schema (some hideStr) none =
      (match hideAllTrace schema (splitChar ' ' hideStr) with
       | (_, some e) => .error e
       | (_, none) => .error .attributeError) := rfl
  rw [hred, h]

theorem C10_witness :
    applyEdits (JValue.obj [("a", .num 1)]) none (some "/zz") = .ok (JValue.obj [("a", .num 1)]) ∧
    applyEdits (JValue.obj [("a", .num 1)]) none none = .ok (JValue.obj [("a", .num 1)]) ∧
    applyEdits (JValue.obj [("a", .num 1)]) (some "/a") none = .error .attributeError :=
  C10_show_only_with_hide (JValue.obj [("a", .num 1)]) (JValue.obj []) "/a" "/zz" rfl

/-- Claim C4 counterexample: hiding the list `/a /zzz` on `{"a":1,"b":2}`
fails on the second path, yet the first deletion has already been applied —
the schema at the failure is missing an entry, refuting "no entry of the
schema has been deleted". -/
theorem C4_counterexample :
    hideAllTrace (JValue.obj [("a", .num 1), ("b", .num 2)]) ["/a", "/zzz"]
      = (JValue.obj [("b", .num 2)], some .keyError) ∧
    JValue.obj [("b", .num 2)] ≠ JValue.obj [("a", .num 1), ("b", .num 2)] :=
  ⟨rfl, by simp⟩

/-- Claim C4 (corrected): a failing hide step reports its error and itself
deletes nothing — the schema state at the failing path is passed through
unchanged — but deletions made for paths earlier in the list persist. -/
theorem C4_failing_hide_step (doc : JValue) (p : String) (ps : List String) (e : EditErr)
    (h : hideStep doc p = .error e) :
    hideAllTrace doc (p :: ps) = (doc, some e) := by
  have hunfold : hideAllTrace doc (p :: ps) =
      (match parsePointer p with
       | .error e0 => (doc, some e0)
       | .ok parts =>
           (match hideOne doc parts with
            | .error e0 => (doc, some e0)
            | .ok d => hideAllTrace d ps)) := rfl
  rw [hunfold]
  unfold hideStep at h
  cases hp : parsePointer p with
  | error e' =>
      rw [hp] at h
      cases h
      rfl
  | ok parts =>
      rw [hp] at h
      have h' : hideOne doc parts = .error e := h
      show (match hideOne doc parts with
            | .error e0 => (doc, some e0)
            | .ok d => hideAllTrace d ps) = (doc, some e)
      rw [h']

theorem C4_witness :
    hideAllTrace (JValue.obj [("b", .num 2)]) ["/zzz"]
      = (JValue.obj [("b", .num 2)], some .keyError) :=
  C4_failing_hide_step (JValue.obj [("b", .num 2)]) "/zzz" [] .keyError rfl

/-- Claim C5 counterexample: hiding `/a/0` and showing `/a/0/x/y` on
`{"a":[{"x":{"y":1}},5]}` makes the show walk hit the scalar `5` as current
parent mid-walk; the directive succeeds silently (the restored content is
attached to a detached container and lost) instead of failing fatally. -/
theorem C5_counterexample :
    applyEdits (JValue.obj [("a", .arr [.obj [("x", .obj [("y", .num 1)])], .num 5])])
        (some "/a/0") (some "/a/0/x/y")
      = .ok (JValue.obj [("a", .arr [.num 5])]) := rfl

/-- Claim C5 (corrected): a non-container snapshot node at the kind-choice
step and a non-container final parent are fatal, but a non-container current
parent at a failed mid-walk step is silently skipped: the walk continues on
a detached fresh container and the current parent is left unchanged. -/
theorem C5_unsupported_parent (snap : JValue) (parts : List String) (orig cur : JValue)
    (part : String) (rest : List String) (oc : JValue)
    (hwalk : walkStep orig part = .ok oc) :
    (newEntryFor oc = .error .unsupportedParent →
      walkStep cur part = .error .jpe →
      showWalk snap parts orig cur (part :: rest) = .error .unsupportedParent) ∧
    (∀ c, isAttachable c = false → showFinal snap parts c = .error .unsupportedParent) ∧
    (∀ ne, newEntryFor oc = .ok ne → walkStep cur part = .error .jpe →
      isAttachable cur = false →
      showWalk snap parts orig cur (part :: rest)
        = (showWalk snap parts oc ne rest).map (fun _ => cur)) := by
  refine ⟨?_, ?_, ?_⟩
  · intro hne hcur
    simp only [showWalk, hwalk, hcur, hne]
  · intro c hc
    cases c <;> first | rfl | simp [isAttachable] at hc
  · intro ne hne hcur hatt
    simp only [showWalk, hwalk, hcur, hne]
    cases hsw : showWalk snap parts oc ne rest with
    | ok filled =>
        have hattach : attachEntry cur part filled = cur := by
          cases cur <;> first | rfl | simp [isAttachable] at hatt
        simp [Except.map, hattach]
    | error e => simp [Except.map]

theorem C5_witness :
    showWalk .null [] (JValue.obj [("x", .obj [("y", .num 1)])]) (.num 5) ["x"]
      = (showWalk .null [] (JValue.obj [("y", .num 1)]) (.obj []) []).map
          (fun _ => (JValue.num 5)) :=
  ((C5_unsupported_parent .null [] (JValue.obj [("x", .obj [("y", .num 1)])]) (.num 5)
      "x" [] (.obj [("y", .num 1)]) rfl).2.2 (.obj []) rfl rfl rfl)

/-- Claim C1 counterexample: hide `/a/0` then show `/a/0` on
`{"a":[10,20,30]}` appends the snapshot value at the tail of the sequence;
the value at the shown path afterwards is `20`, not the snapshot's `10` —
the restored value is not inserted *at* the shown path. -/
theorem C1_counterexample :
    applyEdits (JValue.obj [("a", .arr [.num 10, .num 20, .num 30])])
        (some "/a/0") (some "/a/0")
      = .ok (JValue.obj [("a", .arr [.num 20, .num 30, .num 10])]) ∧
    resolvePtr (JValue.obj [("a", .arr [.num 20, .num 30, .num 10])]) ["a", "0"]
      = .ok (.num 20) ∧
    resolvePtr (JValue.obj [("a", .arr [.num 10, .num 20, .num 30])]) ["a", "0"]
      = .ok (.num 10) ∧
    JValue.num 20 ≠ JValue.num 10 :=
  ⟨rfl, rfl, rfl, by simp⟩

/-- Claim C8 (confirmed): the property fields produced for a `properties`
mapping carry its keys in insertion order, and the hide/show edit primitives
preserve the relative order of the remaining keys (`del` removes exactly the
first occurrence of the key; assignment of a present key keeps its
position). -/
theorem C8_property_field_order (kvs pkvs : List (String × JValue))
    (hp : lookupKey kvs "properties" = some (.obj pkvs)) :
    fieldLabels (processObjectProperties (.obj kvs) "properties") = pkvs.map Prod.fst ∧
    (∀ k pkvs', removeKey pkvs k = some pkvs' →
      pkvs'.map Prod.fst = (pkvs.map Prod.fst).erase k) ∧
    (∀ k v, (lookupKey pkvs k).isSome →
      (setKey pkvs k v).map Prod.fst = pkvs.map Prod.fst) := by
  refine ⟨?_, fun k pkvs' h => removeKey_map_fst h, fun k v h => setKey_map_fst h⟩
  have heq : processObjectProperties (.obj kvs) "properties"
      = .fieldList (propsFields (.obj kvs) pkvs) := by
    unfold processObjectProperties
    split
    · rename_i pkvs2 hmatch
      simp only [lookupJ, hp, Option.some.injEq, JValue.obj.injEq] at hmatch
      rw [hmatch]
    · rename_i hfail
      exact (hfail pkvs (by simp [lookupJ, hp])).elim
  rw [heq, fieldLabels_propsFields]

theorem C8_witness :
    fieldLabels (processObjectProperties
        (JValue.obj [("type", .str "object"),
                     ("properties", .obj [("id", .obj [("type", .str "string")]),
                                          ("secret", .obj [("type", .str "string")])])])
        "properties")
      = ["id", "secret"] :=
  (C8_property_field_order
    [("type", .str "object"),
     ("properties", .obj [("id", .obj [("type", .str "string")]),
                          ("secret", .obj [("type", .str "string")])])]
    [("id", .obj [("type", .str "string")]), ("secret", .obj [("type", .str "string")])]
    rfl).1

/-- Claim C1 (corrected): the restored value is always the one resolved from
the pre-hide snapshot, and recreated missing ancestors are empty containers
mirroring the snapshot kind at each depth (`freshFill`); but at the final
step a mapping parent binds the value at the last segment while a sequence
parent *appends* it at the tail, which need not be the shown path's index. -/
theorem C1_restore_from_snapshot (snap : JValue) (mid : List String) (last : String)
    (v : JValue) (hres : resolvePtr snap (mid ++ [last]) = .ok v) :
    (∀ xs, showFinal snap (mid ++ [last]) (.arr xs) = .ok (.arr (xs ++ [v]))) ∧
    (∀ kvs, showFinal snap (mid ++ [last]) (.obj kvs) = .ok (.obj (setKey kvs last v))) ∧
    showOne snap (emptyLike snap) (mid ++ [last]) = .ok (freshFill snap last v mid) := by
  have hlast : (mid ++ [last]).getLast? = some last := by simp
  refine ⟨fun xs => by simp [showFinal, hres],
          fun kvs => by simp [showFinal, hres, hlast], ?_⟩
  unfold showOne
  rw [show (mid ++ [last]).dropLast = mid from by simp]
  exact showWalk_fresh snap (mid ++ [last]) last v hres hlast mid snap hres

theorem C1_witness :
    showOne (JValue.obj [("a", .arr [.obj [("x", .num 7)]])])
        (emptyLike (JValue.obj [("a", .arr [.obj [("x", .num 7)]])])) ["a", "0", "x"]
      = .ok (freshFill (JValue.obj [("a", .arr [.obj [("x", .num 7)]])]) "x" (.num 7)
               ["a", "0"]) :=
  (C1_restore_from_snapshot (JValue.obj [("a", .arr [.obj [("x", .num 7)]])])
    ["a", "0"] "x" (.num 7) rfl).2.2

/-- Claim C3 counterexample: hide then show of `/a/0` on
`{"a":[{"type":"string"},{"type":"integer"}]}` appends the snapshot element
at the sequence's tail; the subtree at `/a/0` afterwards is the integer
schema, whose formatted output differs from that of the original string
schema — the single-path round-trip fails for a sequence parent. -/
theorem C3_counterexample :
    applyEdits
        (JValue.obj [("a", .arr [.obj [("type", .str "string")],
                                 .obj [("type", .str "integer")]])])
        (some "/a/0") (some "/a/0")
      = .ok (JValue.obj [("a", .arr [.obj [("type", .str "integer")],
                                     .obj [("type", .str "string")]])]) ∧
    resolvePtr (JValue.obj [("a", .arr [.obj [("type", .str "integer")],
                                        .obj [("type", .str "string")]])]) ["a", "0"]
      = .ok (.obj [("type", .str "integer")]) ∧
    resolvePtr (JValue.obj [("a", .arr [.obj [("type", .str "string")],
                                        .obj [("type", .str "integer")]])]) ["a", "0"]
      = .ok (.obj [("type", .str "string")]) ∧
    dispatch (.obj [("type", .str "integer")])
      ≠ dispatch (.obj [("type", .str "string")]) := by
  refine ⟨rfl, rfl, rfl, ?_⟩
  have h1 : dispatch (JValue.obj [("type", .str "integer")])
      = [.fieldList [.field "Type" "jsonschema-description" [.paragraph "integer"]]] := by
    simp [dispatch, processType, keyIn, lookupKey, lookupJ, getJ, beqV, kvpairs,
      KV_SIMPLE, createField, pyStr, textOf]
  have h2 : dispatch (JValue.obj [("type", .str "string")])
      = [.fieldList [.field "Type" "jsonschema-description" [.paragraph "string"]]] := by
    simp [dispatch, processType, keyIn, lookupKey, lookupJ, getJ, beqV, kvpairs,
      KV_SIMPLE, createField, pyStr, textOf]
  rw [h1, h2]
  simp

/-- Claim C3 (corrected): hide-then-show of a single path round-trips when
every container along the path is a mapping — the value is re-bound at the
final segment, so resolving and formatting the subtree matches the unedited
schema (only the key's position moves to the end of its mapping); with a
sequence container on the path the append-at-tail behaviour breaks the
round-trip at that index. -/
theorem C3_hide_show_roundtrip (doc : JValue) (pstr : String) (parts : List String)
    (v : JValue)
    (hsplit : splitChar ' ' pstr = [pstr])
    (hparse : parsePointer pstr = .ok parts)
    (hchain : onObjChain doc parts = true)
    (hne : parts ≠ [])
    (hres : resolvePtr doc parts = .ok v) :
    ∃ r, applyEdits doc (some pstr) (some pstr) = .ok r ∧
      resolvePtr r parts = .ok v ∧
      (resolvePtr r parts).map (fun sub => dispatch sub)
        = (resolvePtr doc parts).map (fun sub => dispatch sub) := by
  obtain ⟨mid, last, rfl⟩ : ∃ mid last, parts = mid ++ [last] := by
    rcases List.eq_nil_or_concat parts with h | ⟨mid, last, h⟩
    · exact absurd h hne
    · exact ⟨mid, last, by simpa [List.concat_eq_append] using h⟩
  have hlast : (mid ++ [last]).getLast? = some last := by simp
  obtain ⟨d, r, hd, hs, hr⟩ :=
    hideShow_objChain doc (mid ++ [last]) last v hres hlast mid doc hchain hres
  refine ⟨r, ?_, hr, by rw [hr, hres]⟩
  have h1 : applyEdits doc (some pstr) (some pstr) =
      (match hideAllTrace doc (splitChar ' ' pstr) with
       | (_, some e) => .error e
       | (afterHide, none) => showAll doc afterHide (splitChar ' ' pstr)) := rfl
  rw [h1, hsplit]
  have h2 : hideAllTrace doc [pstr] = (d, none) := by
    simp [hideAllTrace, hparse, hd]
  rw [h2]
  have hshow : showOne doc d (mid ++ [last]) = .ok r := by
    unfold showOne
    rw [show (mid ++ [last]).dropLast = mid from by simp]
    exact hs
  simp [showAll, hparse, hshow]

theorem C3_witness :
    ∃ r, applyEdits (JValue.obj [("o", .obj [("k", .obj [("type", .str "string")]),
                                             ("m", .num 3)])])
        (some "/o/k") (some "/o/k") = .ok r ∧
      resolvePtr r ["o", "k"] = .ok (.obj [("type", .str "string")]) ∧
      (resolvePtr r ["o", "k"]).map (fun sub => dispatch sub)
        = (resolvePtr (JValue.obj [("o", .obj [("k", .obj [("type", .str "string")]),
                                               ("m", .num 3)])]) ["o", "k"]).map
            (fun sub => dispatch sub) :=
  C3_hide_show_roundtrip
    (JValue.obj [("o", .obj [("k", .obj [("type", .str "string")]), ("m", .num 3)])])
    "/o/k" ["o", "k"] (.obj [("type", .str "string")]) rfl rfl rfl (by simp) rfl

/-- Claim C2 (code bug): on `{"definitions": {"mydef": {"type": "string"}}}`
the dispatch selects the definitions renderer but passes the *whole* schema,
producing one field labeled `definitions` (whose body formats the inner
mapping as a schema, yielding nothing) instead of one field per definition
name (`mydef`) recursively formatted — unlike the `$ref` renderer, which
passes `schema['definitions']`. -/
theorem C2_definitions_renderer_bug :
    dispatch (JValue.obj [("definitions", .obj [("mydef", .obj [("type", .str "string")])])])
      = [.fieldList [.field "definitions" "jsonschema-definition" []]] ∧
    fieldLabels (.fieldList [.field "definitions" "jsonschema-definition" []])
      = ["definitions"] ∧
    (["definitions"] : List String) ≠ ["mydef"] := by
  refine ⟨?_, rfl, by simp⟩
  simp [dispatch, processDefinitions, defsFields, keyIn, lookupKey, lookupJ, createField]

end SphinxJsonSchema
